import Mathlib

/-!
Verification of the devmux process supervisor (src/main.go).

The development gives a shallow embedding of the core of devmux: the pane
reordering function moveProc, the focus machinery (focusedProcIndex and the
TAB / J / K key handlers), the reload sequence of reloadProc with its
SIGTERM poll loop, the global shutdown sequence at the end of main, the
startup guard on the loaded configuration, the fields of a Proc handle
touched by reload, and the mutex discipline of lockingWriter as a small
operational transition system.  Machine integers of the Go source are
modelled as Int (indices) and Nat (elapsed milliseconds); pointers to
tview widgets are modelled by opaque numeric identities.
-/

namespace Devmux

/-- Shallow embedding of moveProc (src/main.go): bounds-checked relocation of
the element at index f to index t.  Out-of-range or equal indices return
the input unchanged.  The Go loop that copies every element except index
f into newOrder is List.eraseIdx, the trailing append branch is the
`to >= len(newOrder)` case, and the Go append-splice insert is
take / cons / drop at index t. -/
def moveProc {α : Type} (procs : List α) (f t : Int) : List α :=
  if h : f < 0 ∨ (procs.length : Int) ≤ f ∨ t < 0 ∨ (procs.length : Int) ≤ t ∨ f = t then
    procs
  else if (procs.eraseIdx f.toNat).length ≤ t.toNat then
    procs.eraseIdx f.toNat ++ [procs.get ⟨f.toNat, by omega⟩]
  else
    (procs.eraseIdx f.toNat).take t.toNat
      ++ procs.get ⟨f.toNat, by omega⟩ :: (procs.eraseIdx f.toNat).drop t.toNat

/-- Identity of a tview widget. Widgets are compared by pointer identity in
the Go source (p.View == f); here a widget is an opaque numeric identity. -/
abbrev ViewId := Nat

/-- Loop body of focusedProcIndex (src/main.go): scan the pane sequence,
return the position of the first pane whose View is the focused widget f,
counting positions from i, and -1 when the scan falls off the end. -/
def focusedProcIndexAux (f : ViewId) : List ViewId → Nat → Int
  | [], _ => -1
  | v :: rest, i => if v = f then (i : Int) else focusedProcIndexAux f rest (i + 1)

/-- focusedProcIndex (src/main.go): position of the pane bound to the
currently focused widget f, or -1 when the focus lies outside all panes. -/
def focusedProcIndex (views : List ViewId) (f : ViewId) : Int :=
  focusedProcIndexAux f views 0

/-- The TAB branch of SetInputCapture (src/main.go): when a pane is focused
(idx >= 0) the focus moves to the view of the pane at (idx + 1) % len(procs);
otherwise the focus is left untouched.  Returns the widget holding the focus
after the key is handled. -/
def tabFocus (views : List ViewId) (f : ViewId) : ViewId :=
  let idx := focusedProcIndex views f
  if 0 ≤ idx then views.getD ((idx + 1) % (views.length : Int)).toNat 0 else f

/-- The J branch of SetInputCapture (src/main.go), move pane down: when a
pane is focused and is not last (idx >= 0 && idx+1 < len(procs)), the
registry becomes moveProc procs idx (idx+1) and the focus is set to the view
of the pane now at index idx+1; otherwise nothing changes.  Returns the new
registry order together with the focused widget. -/
def moveDownKey (views : List ViewId) (f : ViewId) : List ViewId × ViewId :=
  let idx := focusedProcIndex views f
  if 0 ≤ idx ∧ idx + 1 < (views.length : Int) then
    (moveProc views idx (idx + 1), (moveProc views idx (idx + 1)).getD (idx + 1).toNat 0)
  else (views, f)

/-- The K branch of SetInputCapture (src/main.go), move pane up: when a pane
is focused and is not first (idx > 0), the registry becomes
moveProc procs idx (idx-1) and the focus is set to the view of the pane now
at index idx-1; otherwise nothing changes. -/
def moveUpKey (views : List ViewId) (f : ViewId) : List ViewId × ViewId :=
  let idx := focusedProcIndex views f
  if 0 < idx then
    (moveProc views idx (idx - 1), (moveProc views idx (idx - 1)).getD (idx - 1).toNat 0)
  else (views, f)

/-- Grace period used by reloadProc and by the shutdown sequence
(2 * time.Second, in milliseconds). -/
def gracePeriodMs : Nat := 2000

/-- Poll interval of the reloadProc wait loop (50 * time.Millisecond). -/
def pollIntervalMs : Nat := 50

/-- Fixed sleep after SIGKILL in reloadProc (150 * time.Millisecond). -/
def killDelayMs : Nat := 150

/-- Whether the old process's exit has been observed at elapsed time t,
i.e. p.Cmd.ProcessState != nil: exitAt is the elapsed time at which the
exit becomes observable, none when the process ignores SIGTERM and its
exit is never observed inside the window. -/
def exitObserved (exitAt : Option Nat) (t : Nat) : Bool :=
  match exitAt with
  | some e => e ≤ t
  | none => false

/-- The wait loop of reloadProc (src/main.go): while the elapsed time t is
before the 2-second deadline, stop as soon as the exit is observed,
otherwise sleep one 50 ms poll interval; returns the elapsed time at which
the loop exits. -/
def pollLoop (exitAt : Option Nat) (t : Nat) : Nat :=
  if t < gracePeriodMs then
    if exitObserved exitAt t then t
    else pollLoop exitAt (t + pollIntervalMs)
  else t
termination_by gracePeriodMs - t
decreasing_by simp only [gracePeriodMs, pollIntervalMs] at *; omega

/-- The escalation decision of reloadProc: after the wait loop exits,
SIGKILL is sent (at the loop-exit time) exactly when the exit is still
unobserved (p.Cmd.ProcessState == nil); none means no SIGKILL is sent. -/
def sigkillTime (exitAt : Option Nat) : Option Nat :=
  if exitObserved exitAt (pollLoop exitAt 0) then none else some (pollLoop exitAt 0)

/-- Observable events of one reloadProc call. -/
inductive ReloadEv
  | noArgvNotice
  | sigtermSent
  | sigkillSent
  | exitSeen
  | startNew
deriving DecidableEq

/-- Event trace of reloadProc (src/main.go) for one handle: the no-argv
guard reports and stops; otherwise, when a current OS process exists,
SIGTERM is sent and the wait loop runs — it either observes the exit
(exitSeen) or escalates to SIGKILL followed by a fixed 150 ms sleep with no
further observation — and finally the replacement is started. -/
def reloadEvents (hasArgv : Bool) (hasCmd : Bool) (exitAt : Option Nat) : List ReloadEv :=
  if hasArgv = false then [.noArgvNotice]
  else
    (if hasCmd then
      .sigtermSent ::
        (if exitObserved exitAt (pollLoop exitAt 0) then [.exitSeen] else [.sigkillSent])
     else []) ++ [.startNew]

/-- The property asserted by C2: every start of the replacement process is
preceded by an observation of the old process's exit. -/
def observesExitBeforeStart (evs : List ReloadEv) : Prop :=
  ∀ i : Nat, evs[i]? = some ReloadEv.startNew →
    ∃ j : Nat, j < i ∧ evs[j]? = some ReloadEv.exitSeen

/-- Observable events of the shutdown sequence at the end of main
(src/main.go): killTree(SIGTERM) per handle, a global sleep, then
killTree(SIGKILL) per handle.  Handles are identified by opaque numbers. -/
inductive ShutdownEv
  | termSignal (p : Nat)
  | sleepGlobal (ms : Nat)
  | killSignal (p : Nat)
deriving DecidableEq

/-- Event trace of the shutdown sequence run once after app.Run returns
(src/main.go): a SIGTERM broadcast over the registry in order, a single
global 2-second sleep, then a SIGKILL broadcast over the registry in
order. -/
def shutdownEvents (procs : List Nat) : List ShutdownEv :=
  procs.map ShutdownEv.termSignal
    ++ ShutdownEv.sleepGlobal gracePeriodMs :: procs.map ShutdownEv.killSignal

/-- Recognizer for the global grace-period sleep event. -/
def isSleepEv : ShutdownEv → Bool
  | .sleepGlobal _ => true
  | _ => false

/-- A process declaration from procs.json (procSpec in src/main.go). -/
structure ProcSpec where
  name : String
  dir : String
  cmd : String
  args : List String
  follow : Option Bool
deriving DecidableEq

/-- The loaded configuration (procConfig in src/main.go, current revision,
with the group-wide display toggles). -/
structure ProcConfig where
  processes : List ProcSpec
  borders : Bool
  dividers : Bool

/-- The startup guard of main (src/main.go, current revision): the program
prints the diagnostic and returns early exactly when loadConfig failed
(err != nil); a successfully parsed configuration is accepted even when it
contains zero process declarations. -/
def mainEarlyReturn (cfg : Option ProcConfig) : Bool :=
  match cfg with
  | none => true
  | some _ => false

/-- The startup guard of the earlier revision of main (src/main.go, first
revision): early return when loading failed or the declaration list is
empty (err != nil || len(specs) == 0). -/
def mainEarlyReturnPrev (specs : Option (List ProcSpec)) : Bool :=
  match specs with
  | none => true
  | some specs => specs.length == 0

/-- The fields of a Proc handle (src/main.go) as touched by reload: the OS
process reference Cmd is an opaque instance identity (none before any
start), View and Container are opaque widget identities. -/
structure ProcH where
  name : String
  dir : String
  cmd : Option Nat
  view : ViewId
  container : Nat
  follow : Bool
  argv : List String
deriving DecidableEq

/-- Field effect of startProc (src/main.go) on its Proc: on successful
spawn the OS process reference is replaced by the new instance; on spawn
failure (the error return before p.Cmd = cmd) the handle is left untouched.
Name, view, container, follow flag and captured argv are never written. -/
def startProcState (p : ProcH) (spawnOk : Bool) (newCmd : Nat) : ProcH :=
  if spawnOk then { p with cmd := some newCmd } else p

/-- Field effect of reloadProc (src/main.go) on its Proc: with no recorded
argv it only reports into the sink and changes nothing; otherwise the
termination phase leaves every field untouched and startProc runs again
with the captured argv, the same sink and the same follow flag. -/
def reloadProcState (p : ProcH) (spawnOk : Bool) (newCmd : Nat) : ProcH :=
  if p.argv = [] then p
  else startProcState p spawnOk newCmd

/-- A concrete Proc handle used as a witness input. -/
def procEx : ProcH :=
  { name := "api", dir := "./api", cmd := some 1, view := 5, container := 6,
    follow := true, argv := ["go", "run", "."] }

/-- Where a pane writer sends its bytes: through the lockingWriter wrapped
around the ANSI writer of the view, or with fmt.Fprintf directly to the
View widget. -/
inductive SinkRoute
  | lockedAnsiWriter
  | rawView
deriving DecidableEq

/-- The background writers startProc attaches to one pane. -/
inductive PaneWriter
  | stdoutCopy
  | stderrCopy
  | exitNotice
deriving DecidableEq

/-- The wiring of startProc (src/main.go): io.Copy(lw, stdout) and
io.Copy(lw, stderr) write through the lockingWriter lw, while the
exit-notice goroutine writes with fmt.Fprintf(p.View, ...) directly to the
View. -/
def startProcWriterRoutes : List (PaneWriter × SinkRoute) :=
  [(.stdoutCopy, .lockedAnsiWriter), (.stderrCopy, .lockedAnsiWriter),
   (.exitNotice, .rawView)]

/-- The progress notices of reloadProc (src/main.go) are written with
fmt.Fprintf(p.View, ...), directly to the View. -/
def reloadNoticeRoute : SinkRoute := .rawView

/-- The two writers that share one lockingWriter: the stdout-copy and the
stderr-copy goroutines of one pane. -/
abbrev WriterId := Fin 2

/-- State of one pane's lockingWriter together with its two writer
goroutines: who holds the mutex, which writers have entered their Write
call, the bytes each writer still has to push into the underlying writer,
and the bytes already pushed, tagged with their writer. -/
structure SinkState where
  lock : Option WriterId
  started : WriterId → Bool
  pending : WriterId → List Nat
  buf : List (WriterId × Nat)

/-- Initial state: mutex free, no Write call entered, writer i is about to
write the byte sequence W i. -/
def initSink (W : WriterId → List Nat) : SinkState :=
  { lock := none, started := fun _ => false, pending := W, buf := [] }

/-- Small-step semantics of lockingWriter.Write (src/main.go): a Write call
first takes the mutex (acquire), then pushes its bytes into the underlying
writer while holding the mutex (push, one byte per step so that the
scheduler could interleave at byte granularity were it not for the mutex),
and releases the mutex only once all its bytes are pushed (the deferred
Unlock).  The scheduler interleaves the steps of the two writers
arbitrarily; the mutex is the only constraint. -/
inductive SinkStep : SinkState → SinkState → Prop
  | acquire (s : SinkState) (i : WriterId)
      (h1 : s.lock = none) (h2 : s.started i = false) :
      SinkStep s { s with lock := some i, started := Function.update s.started i true }
  | push (s : SinkState) (i : WriterId) (b : Nat) (rest : List Nat)
      (h1 : s.lock = some i) (h2 : s.pending i = b :: rest) :
      SinkStep s { s with pending := Function.update s.pending i rest,
                          buf := s.buf ++ [(i, b)] }
  | release (s : SinkState) (i : WriterId)
      (h1 : s.lock = some i) (h2 : s.pending i = []) :
      SinkStep s { s with lock := none }

/-- States reachable while the two Write calls run to completion. -/
inductive SinkReachable (W : WriterId → List Nat) : SinkState → Prop
  | init : SinkReachable W (initSink W)
  | step {s s' : SinkState} : SinkReachable W s → SinkStep s s' → SinkReachable W s'

/-- The bytes of l tagged as written by writer i. -/
def taggedBytes (i : WriterId) (l : List Nat) : List (WriterId × Nat) :=
  l.map (fun b => (i, b))

/-- Inductive invariant of the sink system: either nothing has happened, or
one writer is inside its Write call and the buffer is exactly its pushed
prefix, or the first writer has finished, or the second writer is inside
its Write call behind the first one's complete bytes, or both have
finished.  In every case the buffer is (a prefix of) one writer's bytes
followed by (a prefix of) the other's. -/
def SinkInv (W : WriterId → List Nat) (s : SinkState) : Prop :=
  s = initSink W ∨
  (∃ u done, s.lock = some u ∧ s.started u = true ∧
    (∀ v, v ≠ u → s.started v = false ∧ s.pending v = W v) ∧
    W u = done ++ s.pending u ∧ s.buf = taggedBytes u done) ∨
  (∃ u, s.lock = none ∧ s.started u = true ∧ s.pending u = [] ∧
    (∀ v, v ≠ u → s.started v = false ∧ s.pending v = W v) ∧
    s.buf = taggedBytes u (W u)) ∨
  (∃ u v done, u ≠ v ∧ s.lock = some v ∧ s.started u = true ∧ s.started v = true ∧
    s.pending u = [] ∧ W v = done ++ s.pending v ∧
    s.buf = taggedBytes u (W u) ++ taggedBytes v done) ∨
  (∃ u v, u ≠ v ∧ s.lock = none ∧ s.started u = true ∧ s.started v = true ∧
    s.pending u = [] ∧ s.pending v = [] ∧
    s.buf = taggedBytes u (W u) ++ taggedBytes v (W v))

/-- A concrete pair of write payloads used as a witness input. -/
def writesEx : WriterId → List Nat :=
  fun i => if i = 0 then [1, 2] else [3]

theorem insertIdx_eq_take_cons_drop {α : Type} (l : List α) (x : α) :
    ∀ n, n ≤ l.length → l.insertIdx n x = l.take n ++ x :: l.drop n := by
  induction l with
  | nil =>
    intro n hn
    have hn0 : n = 0 := by simpa using hn
    subst hn0
    rfl
  | cons hd tl ih =>
    intro n hn
    cases n with
    | zero => rfl
    | succ m =>
      simp only [List.insertIdx_succ_cons, List.take_succ_cons, List.drop_succ_cons,
        List.cons_append, List.cons.injEq, true_and]
      exact ih m (by simpa using hn)

theorem perm_insertIdx {α : Type} (l : List α) (x : α) (n : Nat) (h : n ≤ l.length) :
    List.Perm (l.insertIdx n x) (x :: l) := by
  rw [insertIdx_eq_take_cons_drop l x n h]
  have h1 : List.Perm (l.take n ++ x :: l.drop n) (x :: (l.take n ++ l.drop n)) :=
    List.perm_middle
  rwa [List.take_append_drop] at h1

theorem perm_cons_eraseIdx {α : Type} (l : List α) (n : Nat) (h : n < l.length) :
    List.Perm l (l[n] :: l.eraseIdx n) := by
  have hl : l = l.take n ++ l[n] :: l.drop (n + 1) := by
    conv_lhs => rw [← List.take_append_drop n l]
    rw [List.drop_eq_getElem_cons h]
  rw [List.eraseIdx_eq_take_drop_succ]
  conv_lhs => rw [hl]
  exact List.perm_middle

theorem moveProc_valid {α : Type} {l : List α} {f t : Int}
    (hf0 : 0 ≤ f) (hf : f < l.length) (ht0 : 0 ≤ t) (ht : t < l.length) (hne : f ≠ t)
    (hfn : f.toNat < l.length) :
    moveProc l f t = (l.eraseIdx f.toNat).insertIdx t.toNat (l.get ⟨f.toNat, hfn⟩) := by
  have hlen : (l.eraseIdx f.toNat).length = l.length - 1 := by
    rw [List.length_eraseIdx]
    simp [hfn]
  unfold moveProc
  rw [dif_neg (by omega)]
  split
  next hc =>
    have htn : t.toNat = (l.eraseIdx f.toNat).length := by omega
    rw [htn, List.insertIdx_length_self]
  next hc =>
    rw [insertIdx_eq_take_cons_drop _ _ _ (by omega)]

theorem eraseIdx_toNat_le {α : Type} {l : List α} {f t : Int}
    (hf0 : 0 ≤ f) (hf : f < l.length) (ht0 : 0 ≤ t) (ht : t < l.length) :
    t.toNat ≤ (l.eraseIdx f.toNat).length := by
  rw [List.length_eraseIdx]
  have hfn : f.toNat < l.length := by omega
  simp [hfn]
  omega

theorem moveProc_perm {α : Type} {l : List α} {f t : Int}
    (hf0 : 0 ≤ f) (hf : f < l.length) (ht0 : 0 ≤ t) (ht : t < l.length) (hne : f ≠ t) :
    List.Perm (moveProc l f t) l := by
  have hfn : f.toNat < l.length := by omega
  rw [moveProc_valid hf0 hf ht0 ht hne hfn]
  refine (perm_insertIdx _ _ _ (eraseIdx_toNat_le hf0 hf ht0 ht)).trans ?_
  have := perm_cons_eraseIdx l f.toNat hfn
  simpa [List.get_eq_getElem] using this.symm

theorem moveProc_getElem_to {α : Type} {l : List α} {f t : Int}
    (hf0 : 0 ≤ f) (hf : f < l.length) (ht0 : 0 ≤ t) (ht : t < l.length) (hne : f ≠ t) :
    (moveProc l f t)[t.toNat]? = l[f.toNat]? := by
  have hfn : f.toNat < l.length := by omega
  have htn := eraseIdx_toNat_le hf0 hf ht0 ht
  rw [moveProc_valid hf0 hf ht0 ht hne hfn]
  have hb : t.toNat < ((l.eraseIdx f.toNat).insertIdx t.toNat
      (l.get ⟨f.toNat, hfn⟩)).length := by
    rw [List.length_insertIdx _ _ htn]
    omega
  rw [List.getElem?_eq_getElem hb, List.getElem?_eq_getElem hfn]
  rw [List.getElem_insertIdx_self _ _ _ htn]
  simp [List.get_eq_getElem]

theorem moveProc_eraseIdx_to {α : Type} {l : List α} {f t : Int}
    (hf0 : 0 ≤ f) (hf : f < l.length) (ht0 : 0 ≤ t) (ht : t < l.length) (hne : f ≠ t) :
    (moveProc l f t).eraseIdx t.toNat = l.eraseIdx f.toNat := by
  have hfn : f.toNat < l.length := by omega
  rw [moveProc_valid hf0 hf ht0 ht hne hfn, List.eraseIdx_insertIdx]

theorem moveProc_out_of_range {α : Type} {l : List α} {f t : Int}
    (h : f < 0 ∨ (l.length : Int) ≤ f ∨ t < 0 ∨ (l.length : Int) ≤ t ∨ f = t) :
    moveProc l f t = l := by
  unfold moveProc
  rw [dif_pos h]

/-- C1: for valid distinct indices f and t, moveProc returns a permutation of
the input (no handle duplicated or dropped), the element formerly at index f
now sits at index t, and removing it again at t recovers the input with its
f-th element removed (the relative order of all other elements is
preserved); for out-of-range indices or f = t the input is returned
unchanged. -/
theorem moveProc_permutation_and_placement {α : Type} (l : List α) (f t : Int) :
    ((0 ≤ f ∧ f < l.length ∧ 0 ≤ t ∧ t < l.length ∧ f ≠ t) →
      List.Perm (moveProc l f t) l ∧
      (moveProc l f t)[t.toNat]? = l[f.toNat]? ∧
      (moveProc l f t).eraseIdx t.toNat = l.eraseIdx f.toNat) ∧
    ((f < 0 ∨ (l.length : Int) ≤ f ∨ t < 0 ∨ (l.length : Int) ≤ t ∨ f = t) →
      moveProc l f t = l) := by
  constructor
  · rintro ⟨hf0, hf, ht0, ht, hne⟩
    exact ⟨moveProc_perm hf0 hf ht0 ht hne, moveProc_getElem_to hf0 hf ht0 ht hne,
      moveProc_eraseIdx_to hf0 hf ht0 ht hne⟩
  · exact moveProc_out_of_range

/-- Witness for C1 at the concrete registry [10, 20, 30, 40] with
f = 1 and t = 3. -/
theorem moveProc_permutation_and_placement_witness :
    List.Perm (moveProc [10, 20, 30, 40] (1 : Int) 3) [10, 20, 30, 40] ∧
    (moveProc [10, 20, 30, 40] (1 : Int) 3)[(3 : Int).toNat]? =
      [10, 20, 30, 40][(1 : Int).toNat]? ∧
    (moveProc [10, 20, 30, 40] (1 : Int) 3).eraseIdx (3 : Int).toNat =
      [10, 20, 30, 40].eraseIdx (1 : Int).toNat :=
  (moveProc_permutation_and_placement [10, 20, 30, 40] 1 3).1 (by decide)

theorem focusedProcIndexAux_eq_of_getElem {f : ViewId} :
    ∀ (vs : List ViewId) (k i : Nat), vs.Nodup → vs[k]? = some f →
      focusedProcIndexAux f vs i = ((i + k : Nat) : Int) := by
  intro vs
  induction vs with
  | nil =>
    intro k i _ hk
    simp at hk
  | cons v rest ih =>
    intro k i hnd hk
    rcases List.nodup_cons.mp hnd with ⟨hvmem, hndr⟩
    by_cases hv : v = f
    · subst hv
      cases k with
      | zero => simp [focusedProcIndexAux]
      | succ m =>
        exfalso
        apply hvmem
        simp only [List.getElem?_cons_succ] at hk
        obtain ⟨hm, rfl⟩ := List.getElem?_eq_some.mp hk
        exact List.getElem_mem hm
    · cases k with
      | zero =>
        simp only [List.getElem?_cons_zero, Option.some.injEq] at hk
        exact absurd hk hv
      | succ m =>
        simp only [List.getElem?_cons_succ] at hk
        simp only [focusedProcIndexAux, if_neg hv]
        rw [ih m (i + 1) hndr hk]
        congr 1
        omega

theorem focusedProcIndex_of_getElem {views : List ViewId} {f : ViewId} {k : Nat}
    (hnd : views.Nodup) (hk : views[k]? = some f) :
    focusedProcIndex views f = (k : Int) := by
  have := focusedProcIndexAux_eq_of_getElem views k 0 hnd hk
  simpa [focusedProcIndex] using this

theorem getD_of_getElem {l : List ViewId} {n : Nat} (h : n < l.length) :
    l.getD n 0 = l[n] := by
  rw [List.getD_eq_getElem?_getD, List.getElem?_eq_getElem h]
  rfl

theorem getElem?_getD_self {l : List ViewId} {n : Nat} (h : n < l.length) :
    l[n]? = some (l.getD n 0) := by
  rw [getD_of_getElem h, List.getElem?_eq_getElem h]

theorem tabFocus_getElem {views : List ViewId} {k : Nat}
    (hnd : views.Nodup) (hk : k < views.length) :
    tabFocus views (views.getD k 0) = views.getD ((k + 1) % views.length) 0 := by
  have hidx : focusedProcIndex views (views.getD k 0) = (k : Int) :=
    focusedProcIndex_of_getElem hnd (getElem?_getD_self hk)
  have hcast : (((k : Int) + 1) % (views.length : Int)).toNat
      = (k + 1) % views.length := by
    have h1 : ((k : Int) + 1) = ((k + 1 : Nat) : Int) := by omega
    rw [h1, ← Int.natCast_mod, Int.toNat_natCast]
  simp only [tabFocus, hidx, hcast]
  rw [if_pos (by omega)]

theorem tabFocus_iterate (views : List ViewId) (hnd : views.Nodup) :
    ∀ (k i : Nat), i < views.length →
      (tabFocus views)^[k] (views.getD i 0) = views.getD ((i + k) % views.length) 0 := by
  intro k
  induction k with
  | zero =>
    intro i hi
    simp [Nat.mod_eq_of_lt hi]
  | succ m ih =>
    intro i hi
    rw [Function.iterate_succ_apply, tabFocus_getElem hnd hi]
    have h1 : (i + 1) % views.length < views.length := Nat.mod_lt _ (by omega)
    rw [ih _ h1]
    congr 1
    rw [Nat.mod_add_mod]
    congr 1
    omega

/-- C9: with a non-empty, duplicate-free registry and the focus on some pane,
applying the TAB focus-next handler N times (N = pane count) returns the
focus to the originally focused pane. -/
theorem focusNext_wrap (views : List ViewId) (f : ViewId) (i : Nat)
    (hnd : views.Nodup) (hf : views[i]? = some f) :
    (tabFocus views)^[views.length] f = f := by
  obtain ⟨hi, hget⟩ := List.getElem?_eq_some.mp hf
  have hgd : views.getD i 0 = f := by rw [getD_of_getElem hi, hget]
  have := tabFocus_iterate views hnd views.length i hi
  rw [hgd] at this
  rw [this, Nat.add_mod_right, Nat.mod_eq_of_lt hi, getD_of_getElem hi, hget]

/-- Witness for C9 at the registry [10, 20, 30] with the pane at index 1
focused. -/
theorem focusNext_wrap_witness : (tabFocus [10, 20, 30])^[3] 20 = 20 :=
  focusNext_wrap [10, 20, 30] 20 1 (by decide) (by decide)

/-- Counterexample to C6: on the registry [10, 20, 30] with the focus on a
widget (99) outside all panes, focusedProcIndex reports -1 and the TAB
handler does not move the focus to the pane at index 0 (view 10) — it leaves
the focus where it was. -/
theorem focusNext_from_none_counterexample :
    focusedProcIndex [10, 20, 30] 99 = -1 ∧
    ¬ tabFocus [10, 20, 30] 99 = [10, 20, 30].getD 0 0 := by decide

/-- C6 as amended: when the focus lies outside all panes (focusedProcIndex
returns -1), the TAB focus-next handler is a no-op: the focus is left
unchanged, not moved to index 0. -/
theorem focusNext_from_none_noop (views : List ViewId) (f : ViewId)
    (h : focusedProcIndex views f = -1) : tabFocus views f = f := by
  simp [tabFocus, h]

/-- Witness for the amended C6 at the registry [10, 20, 30] with focus on
the outside widget 99. -/
theorem focusNext_from_none_noop_witness : tabFocus [10, 20, 30] 99 = 99 :=
  focusNext_from_none_noop [10, 20, 30] 99 (by decide)

/-- C10: with a duplicate-free registry and the focus on the pane at index i,
the J handler (move pane down) at a non-boundary index yields the registry
moveProc procs i (i+1) with the previously focused pane now at index i+1 and
still focused; the K handler (move pane up) behaves symmetrically at i-1; at
the boundary (last pane down, first pane up) both the order and the focus
are unchanged. -/
theorem movePane_focus_tracking (views : List ViewId) (f : ViewId) (i : Nat)
    (hnd : views.Nodup) (hf : views[i]? = some f) :
    (i + 1 < views.length →
      (moveDownKey views f).1 = moveProc views (i : Int) ((i : Int) + 1) ∧
      (moveDownKey views f).1[i + 1]? = some f ∧
      (moveDownKey views f).2 = f ∧
      focusedProcIndex (moveDownKey views f).1 f = ((i + 1 : Nat) : Int)) ∧
    (i + 1 = views.length → moveDownKey views f = (views, f)) ∧
    (0 < i →
      (moveUpKey views f).1 = moveProc views (i : Int) ((i : Int) - 1) ∧
      (moveUpKey views f).1[i - 1]? = some f ∧
      (moveUpKey views f).2 = f ∧
      focusedProcIndex (moveUpKey views f).1 f = ((i - 1 : Nat) : Int)) ∧
    (i = 0 → moveUpKey views f = (views, f)) := by
  obtain ⟨hi, hget⟩ := List.getElem?_eq_some.mp hf
  have hidx : focusedProcIndex views f = (i : Int) := focusedProcIndex_of_getElem hnd hf
  refine ⟨?_, ?_, ?_, ?_⟩
  · intro h1
    have e1 : ((i : Int) + 1).toNat = i + 1 := by omega
    have e2 : (i : Int).toNat = i := by omega
    have hplace : (moveProc views (i : Int) ((i : Int) + 1))[i + 1]? = some f := by
      have := moveProc_getElem_to (l := views) (f := (i : Int)) (t := (i : Int) + 1)
        (by omega) (by omega) (by omega) (by omega) (by omega)
      rw [e1, e2, hf] at this
      exact this
    have hperm := moveProc_perm (l := views) (f := (i : Int)) (t := (i : Int) + 1)
      (by omega) (by omega) (by omega) (by omega) (by omega)
    have hdown : moveDownKey views f =
        (moveProc views (i : Int) ((i : Int) + 1),
         (moveProc views (i : Int) ((i : Int) + 1)).getD ((i : Int) + 1).toNat 0) := by
      simp only [moveDownKey, hidx]
      rw [if_pos (by omega)]
    refine ⟨by rw [hdown], by rw [hdown]; exact hplace, ?_, ?_⟩
    · rw [hdown]
      simp only [e1]
      rw [List.getD_eq_getElem?_getD, hplace]
      rfl
    · rw [hdown]
      exact focusedProcIndex_of_getElem (hperm.nodup_iff.mpr hnd) hplace
  · intro h1
    simp only [moveDownKey, hidx]
    rw [if_neg (by omega)]
  · intro h2
    have e1 : ((i : Int) - 1).toNat = i - 1 := by omega
    have e2 : (i : Int).toNat = i := by omega
    have hplace : (moveProc views (i : Int) ((i : Int) - 1))[i - 1]? = some f := by
      have := moveProc_getElem_to (l := views) (f := (i : Int)) (t := (i : Int) - 1)
        (by omega) (by omega) (by omega) (by omega) (by omega)
      rw [e1, e2, hf] at this
      exact this
    have hperm := moveProc_perm (l := views) (f := (i : Int)) (t := (i : Int) - 1)
      (by omega) (by omega) (by omega) (by omega) (by omega)
    have hup : moveUpKey views f =
        (moveProc views (i : Int) ((i : Int) - 1),
         (moveProc views (i : Int) ((i : Int) - 1)).getD ((i : Int) - 1).toNat 0) := by
      simp only [moveUpKey, hidx]
      rw [if_pos (by omega)]
    refine ⟨by rw [hup], by rw [hup]; exact hplace, ?_, ?_⟩
    · rw [hup]
      simp only [e1]
      rw [List.getD_eq_getElem?_getD, hplace]
      rfl
    · rw [hup]
      exact focusedProcIndex_of_getElem (hperm.nodup_iff.mpr hnd) hplace
  · intro h0
    subst h0
    simp only [moveUpKey, hidx]
    rw [if_neg (by omega)]

/-- Witness for C10: moving the focused middle pane of [10, 20, 30] down,
and the boundary no-op of moving the focused first pane up. -/
theorem movePane_focus_tracking_witness :
    ((moveDownKey [10, 20, 30] 20).1 = moveProc [10, 20, 30] (1 : Int) ((1 : Int) + 1) ∧
     (moveDownKey [10, 20, 30] 20).1[2]? = some 20 ∧
     (moveDownKey [10, 20, 30] 20).2 = 20 ∧
     focusedProcIndex (moveDownKey [10, 20, 30] 20).1 20 = 2) ∧
    moveUpKey [10, 20, 30] 10 = ([10, 20, 30], 10) :=
  ⟨(movePane_focus_tracking [10, 20, 30] 20 1 (by decide) (by decide)).1 (by decide),
   (movePane_focus_tracking [10, 20, 30] 10 0 (by decide) (by decide)).2.2.2 rfl⟩

theorem pollLoop_unobserved_ge (exitAt : Option Nat) (t : Nat)
    (h : exitObserved exitAt (pollLoop exitAt t) = false) :
    gracePeriodMs ≤ pollLoop exitAt t := by
  by_cases hlt : t < gracePeriodMs
  · by_cases hobs : exitObserved exitAt t = true
    · have hb : pollLoop exitAt t = t := by rw [pollLoop, if_pos hlt, if_pos hobs]
      rw [hb] at h
      rw [hobs] at h
      exact absurd h (by simp)
    · have hr : pollLoop exitAt t = pollLoop exitAt (t + pollIntervalMs) := by
        rw [pollLoop, if_pos hlt, if_neg hobs]
      rw [hr] at h ⊢
      exact pollLoop_unobserved_ge exitAt (t + pollIntervalMs) h
  · have hb : pollLoop exitAt t = t := by rw [pollLoop, if_neg hlt]
    rw [hb]
    omega
termination_by gracePeriodMs - t
decreasing_by simp only [gracePeriodMs, pollIntervalMs] at *; omega

theorem pollLoop_lt (exitAt : Option Nat) (t : Nat)
    (h : t < gracePeriodMs + pollIntervalMs) :
    pollLoop exitAt t < gracePeriodMs + pollIntervalMs := by
  by_cases hlt : t < gracePeriodMs
  · by_cases hobs : exitObserved exitAt t = true
    · rw [pollLoop, if_pos hlt, if_pos hobs]
      omega
    · rw [pollLoop, if_pos hlt, if_neg hobs]
      exact pollLoop_lt exitAt (t + pollIntervalMs)
        (by simp only [gracePeriodMs, pollIntervalMs] at *; omega)
  · rw [pollLoop, if_neg hlt]
    exact h
termination_by gracePeriodMs - t
decreasing_by simp only [gracePeriodMs, pollIntervalMs] at *; omega

theorem pollLoop_observes (e t : Nat) (he : e < gracePeriodMs) :
    exitObserved (some e) (pollLoop (some e) t) = true := by
  by_cases hlt : t < gracePeriodMs
  · by_cases hobs : exitObserved (some e) t = true
    · rw [pollLoop, if_pos hlt, if_pos hobs]
      exact hobs
    · rw [pollLoop, if_pos hlt, if_neg hobs]
      exact pollLoop_observes e (t + pollIntervalMs) he
  · rw [pollLoop, if_neg hlt]
    simp only [exitObserved, decide_eq_true_eq]
    omega
termination_by gracePeriodMs - t
decreasing_by simp only [gracePeriodMs, pollIntervalMs] at *; omega

theorem pollLoop_early (e t : Nat) (he : e + pollIntervalMs ≤ gracePeriodMs)
    (ht : t ≤ e) :
    e ≤ pollLoop (some e) t ∧ pollLoop (some e) t < e + pollIntervalMs ∧
      pollLoop (some e) t < gracePeriodMs := by
  have hlt : t < gracePeriodMs := by
    simp only [gracePeriodMs, pollIntervalMs] at *
    omega
  by_cases hobs : exitObserved (some e) t = true
  · have het : e ≤ t := by simpa [exitObserved] using hobs
    have hb : pollLoop (some e) t = t := by rw [pollLoop, if_pos hlt, if_pos hobs]
    rw [hb]
    simp only [gracePeriodMs, pollIntervalMs] at *
    omega
  · have hr : pollLoop (some e) t = pollLoop (some e) (t + pollIntervalMs) := by
      rw [pollLoop, if_pos hlt, if_neg hobs]
    have het : ¬ e ≤ t := by simpa [exitObserved] using hobs
    by_cases hc : t + pollIntervalMs ≤ e
    · rw [hr]
      exact pollLoop_early e (t + pollIntervalMs) he hc
    · have hlt2 : t + pollIntervalMs < gracePeriodMs := by
        simp only [gracePeriodMs, pollIntervalMs] at *
        omega
      have hobs2 : exitObserved (some e) (t + pollIntervalMs) = true := by
        simp only [exitObserved, decide_eq_true_eq]
        omega
      have hb2 : pollLoop (some e) (t + pollIntervalMs) = t + pollIntervalMs := by
        rw [pollLoop, if_pos hlt2, if_pos hobs2]
      rw [hr, hb2]
      simp only [gracePeriodMs, pollIntervalMs] at *
      omega
termination_by gracePeriodMs - t
decreasing_by simp only [gracePeriodMs, pollIntervalMs] at *; omega

/-- Counterexample to C4: a process whose exit becomes observable at
1960 ms exits before the 2000 ms deadline, yet the poll loop does not stop
early — its checks run at 0, 50, ..., 1950 ms and all miss the exit, so the
loop runs to the full deadline and returns 2000 ms (only the check after
the loop sees the exit, so no SIGKILL is sent). -/
theorem sigkill_early_stop_counterexample :
    1960 < gracePeriodMs ∧ pollLoop (some 1960) 0 = gracePeriodMs ∧
      sigkillTime (some 1960) = none := by
  refine ⟨by decide, ?_, ?_⟩
  · simp [pollLoop, exitObserved, gracePeriodMs, pollIntervalMs]
  · simp [sigkillTime, pollLoop, exitObserved, gracePeriodMs, pollIntervalMs]

/-- C4 as amended: during escalated termination of a process that never has
its exit observed inside the window, SIGKILL is issued no earlier than the
2-second grace period and no later than the grace period plus one 50 ms
poll interval; whenever the process exits before the deadline no SIGKILL is
sent; and whenever it exits at or before the last poll tick (the deadline
minus one poll interval) the poll loop stops early: it exits at the first
50 ms tick at or after the exit — before the deadline and at most one poll
interval after the exit. -/
theorem sigkill_timing (exitAt : Option Nat) :
    (∀ k, sigkillTime exitAt = some k →
      gracePeriodMs ≤ k ∧ k ≤ gracePeriodMs + pollIntervalMs) ∧
    (∀ e, exitAt = some e → e < gracePeriodMs → sigkillTime exitAt = none) ∧
    (∀ e, exitAt = some e → e + pollIntervalMs ≤ gracePeriodMs →
      e ≤ pollLoop exitAt 0 ∧ pollLoop exitAt 0 < e + pollIntervalMs ∧
      pollLoop exitAt 0 < gracePeriodMs) := by
  refine ⟨?_, ?_, ?_⟩
  · intro k hk
    unfold sigkillTime at hk
    by_cases hobs : exitObserved exitAt (pollLoop exitAt 0) = true
    · rw [if_pos hobs] at hk
      exact absurd hk (by simp)
    · rw [if_neg hobs] at hk
      have hobs' : exitObserved exitAt (pollLoop exitAt 0) = false := by
        simpa using hobs
      have h1 := pollLoop_unobserved_ge exitAt 0 hobs'
      have h2 := pollLoop_lt exitAt 0 (by simp [gracePeriodMs, pollIntervalMs])
      have hk' : k = pollLoop exitAt 0 := by
        simpa using hk.symm
      omega
  · rintro e rfl he
    unfold sigkillTime
    rw [if_pos (pollLoop_observes e 0 he)]
  · rintro e rfl he
    exact pollLoop_early e 0 he (Nat.zero_le e)

/-- Witness for the amended C4: with the exit never observed, SIGKILL is
sent at a time inside the required window; with an exit observable 100 ms
in, no SIGKILL is sent and the poll loop stops early, within one poll
interval of the exit. -/
theorem sigkill_timing_witness :
    (gracePeriodMs ≤ 2000 ∧ 2000 ≤ gracePeriodMs + pollIntervalMs) ∧
    sigkillTime (some 100) = none ∧
    (100 ≤ pollLoop (some 100) 0 ∧ pollLoop (some 100) 0 < 100 + pollIntervalMs ∧
      pollLoop (some 100) 0 < gracePeriodMs) :=
  ⟨(sigkill_timing none).1 2000
      (by simp [sigkillTime, exitObserved, pollLoop, gracePeriodMs, pollIntervalMs]),
   (sigkill_timing (some 100)).2.1 100 rfl (by decide),
   (sigkill_timing (some 100)).2.2 100 rfl (by decide)⟩

/-- Counterexample to C2: when the old process's exit is never observed
inside the window (it ignores SIGTERM), reloadProc's trace is SIGTERM,
SIGKILL, start — the replacement is started without the old process's exit
ever being observed, contradicting the claim that reload always observes
the exit before starting the replacement. -/
theorem reload_observation_counterexample :
    reloadEvents true true none = [.sigtermSent, .sigkillSent, .startNew] ∧
    ¬ observesExitBeforeStart (reloadEvents true true none) := by
  have hev : reloadEvents true true none = [.sigtermSent, .sigkillSent, .startNew] := by
    simp [reloadEvents, exitObserved]
  refine ⟨hev, ?_⟩
  rw [hev]
  intro hobs
  obtain ⟨j, hj, hget⟩ := hobs 2 rfl
  interval_cases j <;> simp at hget

/-- C2 as amended: reload synchronously drives the escalated termination
before the restart; when the old process's exit is observed within the
2-second window the restart strictly follows that observation, but on the
escalation path SIGKILL is sent and the restart follows the fixed 150 ms
sleep without the exit being observed; with no current OS process the
restart happens directly, and with no recorded argv nothing is restarted. -/
theorem reload_observation (exitAt : Option Nat) :
    (∀ e, exitAt = some e → e < gracePeriodMs →
      reloadEvents true true exitAt = [.sigtermSent, .exitSeen, .startNew] ∧
      observesExitBeforeStart (reloadEvents true true exitAt)) ∧
    (exitObserved exitAt (pollLoop exitAt 0) = false →
      reloadEvents true true exitAt = [.sigtermSent, .sigkillSent, .startNew]) ∧
    reloadEvents true false exitAt = [.startNew] ∧
    (∀ hasCmd, reloadEvents false hasCmd exitAt = [.noArgvNotice]) := by
  refine ⟨?_, ?_, ?_, ?_⟩
  · rintro e rfl he
    have hobs := pollLoop_observes e 0 he
    have hev : reloadEvents true true (some e) = [.sigtermSent, .exitSeen, .startNew] := by
      simp [reloadEvents, hobs]
    refine ⟨hev, ?_⟩
    rw [hev]
    intro i hi
    have hi2 : i = 2 := by
      rcases i with _ | _ | _ | n <;> simp_all
    subst hi2
    exact ⟨1, by omega, by simp⟩
  · intro h
    simp [reloadEvents, h]
  · simp [reloadEvents]
  · intro hasCmd
    simp [reloadEvents]

/-- Witness for the amended C2 with the exit observed 100 ms after
SIGTERM. -/
theorem reload_observation_witness :
    reloadEvents true true (some 100) = [.sigtermSent, .exitSeen, .startNew] ∧
    observesExitBeforeStart (reloadEvents true true (some 100)) :=
  (reload_observation (some 100)).1 100 rfl (by decide)

/-- C3: the shutdown sequence first sends SIGTERM to every handle in
registry order (positions 0..n-1 of the trace), then performs the single
global 2-second sleep (position n, and the only sleep event in the whole
trace), then sends SIGKILL to every handle in registry order
(positions n+1..2n), and contains nothing else. -/
theorem shutdown_sequence_order (procs : List Nat) :
    (∀ i : Nat, i < procs.length →
      (shutdownEvents procs)[i]? = (procs[i]?).map ShutdownEv.termSignal) ∧
    (shutdownEvents procs)[procs.length]? =
      some (ShutdownEv.sleepGlobal gracePeriodMs) ∧
    (∀ i : Nat, i < procs.length →
      (shutdownEvents procs)[procs.length + 1 + i]? =
        (procs[i]?).map ShutdownEv.killSignal) ∧
    (shutdownEvents procs).countP isSleepEv = 1 ∧
    (shutdownEvents procs).length = 2 * procs.length + 1 := by
  refine ⟨?_, ?_, ?_, ?_, ?_⟩
  · intro i hi
    rw [shutdownEvents, List.getElem?_append_left (by simpa using hi),
      List.getElem?_map]
  · rw [shutdownEvents, List.getElem?_append_right (by simp)]
    simp
  · intro i hi
    rw [shutdownEvents, List.getElem?_append_right (by simp; omega)]
    have hidx : procs.length + 1 + i - (procs.map ShutdownEv.termSignal).length
        = i + 1 := by
      simp
      omega
    rw [hidx, List.getElem?_cons_succ, List.getElem?_map]
  · simp [shutdownEvents, List.countP_append, List.countP_cons, List.countP_map,
      isSleepEv, Function.comp_def]
  · simp [shutdownEvents]
    omega

/-- Witness for C3 at the registry [7, 8, 9] with i = 1. -/
theorem shutdown_sequence_order_witness :
    (shutdownEvents [7, 8, 9])[1]? = ([7, 8, 9][1]?).map ShutdownEv.termSignal ∧
    (shutdownEvents [7, 8, 9])[[7, 8, 9].length + 1 + 1]? =
      ([7, 8, 9][1]?).map ShutdownEv.killSignal :=
  ⟨(shutdown_sequence_order [7, 8, 9]).1 1 (by decide),
   (shutdown_sequence_order [7, 8, 9]).2.2.1 1 (by decide)⟩

/-- C5 (the guard regression): a configuration that parses successfully but
contains zero process declarations does not trigger the early return of the
current revision of main — its guard only checks the load error — whereas
the guard of the earlier revision did return early on an empty declaration
list; the shutdown broadcast over the resulting empty registry signals
nothing. -/
theorem emptyConfig_guard_eval :
    mainEarlyReturn (some { processes := [], borders := true, dividers := true }) = false ∧
    mainEarlyReturnPrev (some []) = true ∧
    shutdownEvents [] = [ShutdownEv.sleepGlobal gracePeriodMs] :=
  ⟨rfl, rfl, rfl⟩

/-- C8: for a handle with a recorded argv, reload preserves the handle's
name, its view and container (hence all accumulated scrollback), its follow
flag and its captured argv; only the OS process reference changes, becoming
the new instance on a successful spawn. -/
theorem reload_preserves_identity (p : ProcH) (spawnOk : Bool) (newCmd : Nat)
    (h : p.argv ≠ []) :
    (reloadProcState p spawnOk newCmd).name = p.name ∧
    (reloadProcState p spawnOk newCmd).view = p.view ∧
    (reloadProcState p spawnOk newCmd).container = p.container ∧
    (reloadProcState p spawnOk newCmd).follow = p.follow ∧
    (reloadProcState p spawnOk newCmd).argv = p.argv ∧
    (spawnOk = true → (reloadProcState p spawnOk newCmd).cmd = some newCmd) := by
  unfold reloadProcState startProcState
  rw [if_neg h]
  cases spawnOk <;> simp

/-- Witness for C8 at a concrete handle with argv ["go", "run", "."]. -/
theorem reload_preserves_identity_witness :
    (reloadProcState procEx true 2).name = procEx.name ∧
    (reloadProcState procEx true 2).view = procEx.view ∧
    (reloadProcState procEx true 2).container = procEx.container ∧
    (reloadProcState procEx true 2).follow = procEx.follow ∧
    (reloadProcState procEx true 2).argv = procEx.argv ∧
    (true = true → (reloadProcState procEx true 2).cmd = some 2) :=
  reload_preserves_identity procEx true 2 (by decide)

theorem fin_two_eq_or (i u v : WriterId) (h : u ≠ v) : i = u ∨ i = v := by
  fin_cases i <;> fin_cases u <;> fin_cases v <;> simp_all

theorem fin_two_exists_ne (u : WriterId) : ∃ v : WriterId, v ≠ u := by
  fin_cases u
  · exact ⟨1, by decide⟩
  · exact ⟨0, by decide⟩

theorem taggedBytes_append (i : WriterId) (l1 l2 : List Nat) :
    taggedBytes i (l1 ++ l2) = taggedBytes i l1 ++ taggedBytes i l2 := by
  simp [taggedBytes]

theorem sinkInv_step {W : WriterId → List Nat} {s s' : SinkState}
    (hInv : SinkInv W s) (hstep : SinkStep s s') : SinkInv W s' := by
  cases hstep with
  | acquire i h1 h2 =>
    rcases hInv with h0 | ⟨u, done, hl, hsu, hoth, hWu, hbuf⟩ |
      ⟨u, hl, hsu, hpu, hoth, hbuf⟩ | ⟨u, v, done, huv, hl, hsu, hsv, hpu, hWv, hbuf⟩ |
      ⟨u, v, huv, hl, hsu, hsv, hpu, hpv, hbuf⟩
    · subst h0
      refine Or.inr (Or.inl ⟨i, [], rfl, ?_, ?_, ?_, ?_⟩)
      · simp
      · intro v hv
        simp [initSink, Function.update_noteq hv]
      · simp [initSink]
      · simp [initSink, taggedBytes]
    · rw [hl] at h1
      cases h1
    · have hne : i ≠ u := by
        intro he
        rw [he, hsu] at h2
        cases h2
      refine Or.inr (Or.inr (Or.inr (Or.inl
        ⟨u, i, [], Ne.symm hne, rfl, ?_, ?_, hpu, ?_, ?_⟩)))
      · simp [Function.update_noteq (Ne.symm hne), hsu]
      · simp
      · simp [(hoth i hne).2]
      · simp [taggedBytes, hbuf]
    · rw [hl] at h1
      cases h1
    · rcases fin_two_eq_or i u v huv with rfl | rfl
      · rw [hsu] at h2
        cases h2
      · rw [hsv] at h2
        cases h2
  | push i b rest h1 h2 =>
    rcases hInv with h0 | ⟨u, done, hl, hsu, hoth, hWu, hbuf⟩ |
      ⟨u, hl, hsu, hpu, hoth, hbuf⟩ | ⟨u, v, done, huv, hl, hsu, hsv, hpu, hWv, hbuf⟩ |
      ⟨u, v, huv, hl, hsu, hsv, hpu, hpv, hbuf⟩
    · subst h0
      simp [initSink] at h1
    · have hiu : i = u := by
        rw [hl] at h1
        exact (Option.some.inj h1).symm
      subst hiu
      refine Or.inr (Or.inl ⟨i, done ++ [b], hl, hsu, ?_, ?_, ?_⟩)
      · intro v hv
        refine ⟨(hoth v hv).1, ?_⟩
        simp [Function.update_noteq hv, (hoth v hv).2]
      · simp [hWu, h2]
      · simp [hbuf, taggedBytes]
    · rw [hl] at h1
      cases h1
    · have hiv : i = v := by
        rw [hl] at h1
        exact (Option.some.inj h1).symm
      subst hiv
      refine Or.inr (Or.inr (Or.inr (Or.inl
        ⟨u, i, done ++ [b], huv, hl, hsu, hsv, ?_, ?_, ?_⟩)))
      · simp [Function.update_noteq huv, hpu]
      · simp [hWv, h2]
      · simp [hbuf, taggedBytes]
    · rw [hl] at h1
      cases h1
  | release i h1 h2 =>
    rcases hInv with h0 | ⟨u, done, hl, hsu, hoth, hWu, hbuf⟩ |
      ⟨u, hl, hsu, hpu, hoth, hbuf⟩ | ⟨u, v, done, huv, hl, hsu, hsv, hpu, hWv, hbuf⟩ |
      ⟨u, v, huv, hl, hsu, hsv, hpu, hpv, hbuf⟩
    · subst h0
      simp [initSink] at h1
    · have hiu : i = u := by
        rw [hl] at h1
        exact (Option.some.inj h1).symm
      subst hiu
      have hdone : W i = done := by
        rw [hWu, h2, List.append_nil]
      refine Or.inr (Or.inr (Or.inl ⟨i, rfl, hsu, h2, hoth, ?_⟩))
      simp [hbuf, hdone]
    · rw [hl] at h1
      cases h1
    · have hiv : i = v := by
        rw [hl] at h1
        exact (Option.some.inj h1).symm
      subst hiv
      have hdone : W i = done := by
        rw [hWv, h2, List.append_nil]
      refine Or.inr (Or.inr (Or.inr (Or.inr
        ⟨u, i, huv, rfl, hsu, hsv, hpu, h2, ?_⟩)))
      simp [hbuf, hdone]
    · rw [hl] at h1
      cases h1

theorem sinkInv_reachable {W : WriterId → List Nat} {s : SinkState}
    (h : SinkReachable W s) : SinkInv W s := by
  induction h with
  | init => exact Or.inl rfl
  | step h1 h2 ih => exact sinkInv_step ih h2

theorem sink_two_block {W : WriterId → List Nat} {s : SinkState}
    (h : SinkReachable W s) :
    ∃ u v du dv ru rv, u ≠ v ∧ W u = du ++ ru ∧ W v = dv ++ rv ∧
      s.buf = taggedBytes u du ++ taggedBytes v dv := by
  rcases sinkInv_reachable h with h0 | ⟨u, done, hl, hsu, hoth, hWu, hbuf⟩ |
    ⟨u, hl, hsu, hpu, hoth, hbuf⟩ | ⟨u, v, done, huv, hl, hsu, hsv, hpu, hWv, hbuf⟩ |
    ⟨u, v, huv, hl, hsu, hsv, hpu, hpv, hbuf⟩
  · subst h0
    exact ⟨0, 1, [], [], W 0, W 1, by decide, rfl, rfl, by simp [initSink, taggedBytes]⟩
  · obtain ⟨v, hv⟩ := fin_two_exists_ne u
    exact ⟨u, v, done, [], s.pending u, W v, Ne.symm hv, hWu,
      (List.nil_append _).symm, by rw [hbuf]; simp [taggedBytes]⟩
  · obtain ⟨v, hv⟩ := fin_two_exists_ne u
    exact ⟨u, v, W u, [], [], W v, Ne.symm hv, (List.append_nil _).symm,
      (List.nil_append _).symm, by rw [hbuf]; simp [taggedBytes]⟩
  · exact ⟨u, v, W u, done, [], s.pending v, huv, (List.append_nil _).symm, hWv, hbuf⟩
  · exact ⟨u, v, W u, W v, [], [], huv, (List.append_nil _).symm,
      (List.append_nil _).symm, hbuf⟩

theorem taggedBytes_map_fst (i : WriterId) (l : List Nat) :
    (taggedBytes i l).map Prod.fst = List.replicate l.length i := by
  induction l with
  | nil => rfl
  | cons b t ih =>
    simp only [taggedBytes, List.map_cons, List.length_cons, List.replicate_succ] at *
    rw [ih]

theorem const_tag_map_fst {i : WriterId} {l : List (WriterId × Nat)}
    (h : ∀ p ∈ l, p.1 = i) : l.map Prod.fst = List.replicate l.length i := by
  refine List.eq_replicate_iff.mpr ⟨by simp, ?_⟩
  intro b hb
  obtain ⟨p, hp, rfl⟩ := List.mem_map.mp hb
  exact h p hp

theorem replicate_append_lookup {m n : Nat} {u v x : WriterId} {k : Nat}
    (h : (List.replicate m u ++ List.replicate n v)[k]? = some x) :
    (k < m ∧ x = u) ∨ (m ≤ k ∧ k < m + n ∧ x = v) := by
  by_cases hk : k < m
  · rw [List.getElem?_append_left (by simpa using hk), List.getElem?_replicate,
      if_pos hk] at h
    exact Or.inl ⟨hk, (Option.some.inj h).symm⟩
  · have hm : m ≤ k := Nat.le_of_not_lt hk
    rw [List.getElem?_append_right (by simpa using hm)] at h
    simp only [List.length_replicate] at h
    rw [List.getElem?_replicate] at h
    by_cases h2 : k - m < n
    · rw [if_pos h2] at h
      exact Or.inr ⟨hm, by omega, (Option.some.inj h).symm⟩
    · rw [if_neg h2] at h
      cases h

theorem two_block_no_split {u v : WriterId} {du dv : List Nat} (huv : u ≠ v) :
    ¬ ∃ (i j : WriterId) (a1 b1 a2 : List (WriterId × Nat)),
      i ≠ j ∧ a1 ≠ [] ∧ b1 ≠ [] ∧ a2 ≠ [] ∧
      taggedBytes u du ++ taggedBytes v dv = a1 ++ b1 ++ a2 ∧
      (∀ p ∈ a1, p.1 = i) ∧ (∀ p ∈ b1, p.1 = j) ∧ (∀ p ∈ a2, p.1 = i) := by
  rintro ⟨i, j, a1, b1, a2, hij, ha1, hb1, ha2, heq, h1, h2, h3⟩
  have htags := congrArg (List.map Prod.fst) heq
  rw [List.map_append, taggedBytes_map_fst, taggedBytes_map_fst, List.map_append,
    List.map_append, const_tag_map_fst h1, const_tag_map_fst h2,
    const_tag_map_fst h3] at htags
  set m := du.length
  set n := dv.length
  set p := a1.length
  set q := b1.length
  set r := a2.length
  have hp : 0 < p := List.length_pos.mpr ha1
  have hq : 0 < q := List.length_pos.mpr hb1
  have hr : 0 < r := List.length_pos.mpr ha2
  have hpq1 : p - 1 < (List.replicate p i ++ List.replicate q j).length := by
    simp only [List.length_append, List.length_replicate]
    omega
  have hpq2 : p < (List.replicate p i ++ List.replicate q j).length := by
    simp only [List.length_append, List.length_replicate]
    omega
  have hsub : p - 1 < p := Nat.sub_lt hp Nat.one_pos
  have e1R : (List.replicate p i ++ List.replicate q j ++ List.replicate r i)[p - 1]?
      = some i := by
    rw [List.getElem?_append_left hpq1, List.getElem?_append_left (by simpa using hsub),
      List.getElem?_replicate, if_pos hsub]
  have e2R : (List.replicate p i ++ List.replicate q j ++ List.replicate r i)[p]?
      = some j := by
    rw [List.getElem?_append_left hpq2, List.getElem?_append_right (by simp),
      List.length_replicate, Nat.sub_self, List.getElem?_replicate, if_pos hq]
  have e3R : (List.replicate p i ++ List.replicate q j ++ List.replicate r i)[p + q]?
      = some i := by
    rw [List.getElem?_append_right (by simp), List.length_append, List.length_replicate,
      List.length_replicate, Nat.sub_self, List.getElem?_replicate, if_pos hr]
  have e1 : (List.replicate m u ++ List.replicate n v)[p - 1]? = some i := by
    rw [htags]
    exact e1R
  have e2 : (List.replicate m u ++ List.replicate n v)[p]? = some j := by
    rw [htags]
    exact e2R
  have e3 : (List.replicate m u ++ List.replicate n v)[p + q]? = some i := by
    rw [htags]
    exact e3R
  rcases replicate_append_lookup e2 with ⟨hpm, rfl⟩ | ⟨hmp, hlt, rfl⟩
  · rcases replicate_append_lookup e1 with ⟨h1m, rfl⟩ | ⟨hc, hc2, hceq⟩
    · exact hij rfl
    · omega
  · rcases replicate_append_lookup e3 with ⟨hc, hceq⟩ | ⟨hc1, hc2, hceq⟩
    · omega
    · exact hij hceq

/-- C7 as amended: of the writers startProc wires into one pane, the
stdout-copy and the stderr-copy go through the mutex-guarded lockingWriter
while the exit-notice (and the reload notices of reloadProc) write directly
to the View; and for the writers that do go through the lock, writes are
atomic: in every state reachable under the mutex discipline, the pushed
bytes form two contiguous writer-tagged blocks — a prefix of one writer's
byte sequence followed by a prefix of the other's — and never contain a
nonempty fragment of writer A, then one of writer B, then another of A. -/
theorem sink_mutex_atomicity (W : WriterId → List Nat) (s : SinkState)
    (h : SinkReachable W s) :
    ((PaneWriter.stdoutCopy, SinkRoute.lockedAnsiWriter) ∈ startProcWriterRoutes ∧
     (PaneWriter.stderrCopy, SinkRoute.lockedAnsiWriter) ∈ startProcWriterRoutes ∧
     (PaneWriter.exitNotice, SinkRoute.rawView) ∈ startProcWriterRoutes ∧
     reloadNoticeRoute = SinkRoute.rawView) ∧
    (∃ u v du dv ru rv, u ≠ v ∧ W u = du ++ ru ∧ W v = dv ++ rv ∧
      s.buf = taggedBytes u du ++ taggedBytes v dv) ∧
    ¬ ∃ (i j : WriterId) (a1 b1 a2 : List (WriterId × Nat)),
      i ≠ j ∧ a1 ≠ [] ∧ b1 ≠ [] ∧ a2 ≠ [] ∧
      s.buf = a1 ++ b1 ++ a2 ∧
      (∀ p ∈ a1, p.1 = i) ∧ (∀ p ∈ b1, p.1 = j) ∧ (∀ p ∈ a2, p.1 = i) := by
  obtain ⟨u, v, du, dv, ru, rv, huv, hWu, hWv, hbuf⟩ := sink_two_block h
  refine ⟨⟨by decide, by decide, by decide, rfl⟩,
    ⟨u, v, du, dv, ru, rv, huv, hWu, hWv, hbuf⟩, ?_⟩
  rw [hbuf]
  exact two_block_no_split huv

/-- Counterexample to C7 as stated: not every write into a pane's sink goes
through the mutex-guarded entry point — the exit-notice writer of startProc
(and the reload notices of reloadProc) write with fmt.Fprintf directly to
the View. -/
theorem sink_routing_counterexample :
    ¬ (∀ w ∈ startProcWriterRoutes, w.2 = SinkRoute.lockedAnsiWriter) := by decide

/-- Witness for the amended C7 in the initial state of the payloads
writesEx. -/
theorem sink_mutex_atomicity_witness :
    ∃ u v du dv ru rv, u ≠ v ∧ writesEx u = du ++ ru ∧ writesEx v = dv ++ rv ∧
      (initSink writesEx).buf = taggedBytes u du ++ taggedBytes v dv :=
  ((sink_mutex_atomicity writesEx (initSink writesEx) SinkReachable.init).2).1

end Devmux
